import Mathlib

/-!
Verification of the Skills Registry tooling.

This file shallowly embeds the three scripts of the repository
(`scripts/validate_plugins.py`, `scripts/generate_marketplace.py`,
`plugins/general/hpc-dev-testing-workflow/scripts/setup_test_data.py`)
and proves properties of the embedded definitions.

Modelling conventions:
- Paths are lists of path components (`List String`).
- A directory tree is a flat list of (absolute path, node) entries,
  where a node is a directory or a file; file contents are modelled
  by their JSON-parse outcome (the scripts only ever parse files as
  JSON or copy them opaquely).
- Python exceptions that the scripts do not catch are modelled with
  `Except PyErr`; `.error` means the process dies with a traceback.
- Machine-level details (bytes, timestamps, I/O errors) that no claim
  depends on are not modelled.
-/

/-- Uncaught Python exceptions relevant to these scripts. -/
inductive PyErr where
  | attributeError
  | typeError
deriving DecidableEq

/-- Values of parsed JSON documents (the result of a successful `json.load`). -/
inductive JVal where
  | null
  | bool (b : Bool)
  | num (n : Int)
  | str (s : String)
  | arr (xs : List JVal)
  | obj (flds : List (String × JVal))

/-- Tests whether a JSON value is an object (a Python `dict`). -/
def JVal.isObj : JVal → Bool
  | .obj _ => true
  | _ => false

/-- Content of a file, abstracted by its JSON-parse outcome: either it parses
to a JSON value, or `json.load` raises `JSONDecodeError`. -/
inductive FileContent where
  | jsonVal (v : JVal)
  | notJson

/-- A filesystem node: a directory or a file with content. -/
inductive Node where
  | dir
  | file (c : FileContent)

/-- A directory tree as a flat list of (path, node) entries.  A real
filesystem has no two entries with the same path; theorems that need this
assume `(entries.map Prod.fst).Nodup`. -/
structure FS where
  entries : List (List String × Node)

/-- Model of `Path.is_dir`. -/
def FS.isDir (fs : FS) (p : List String) : Bool :=
  fs.entries.any (fun e =>
    e.1 == p && (match e.2 with | .dir => true | _ => false))

/-- Content of the file at `p`, if a file entry with that path exists. -/
def FS.fileContent (fs : FS) (p : List String) : Option FileContent :=
  (fs.entries.filterMap (fun e =>
    match e with
    | (q, .file c) => if q == p then some c else none
    | _ => none)).head?

/-- Model of `Path.is_file`. -/
def FS.isFile (fs : FS) (p : List String) : Bool :=
  (fs.fileContent p).isSome

/-- Model of `Path.iterdir` filtered by `is_dir`: names of the immediate
subdirectories of `p`, in filesystem (entry-list) order.  Both scripts
`continue` over non-directory children, so only directories are listed. -/
def FS.childDirs (fs : FS) (p : List String) : List String :=
  fs.entries.filterMap (fun e =>
    match e with
    | (q, .dir) =>
      if q.length == p.length + 1 && p.isPrefixOf q then q.getLast? else none
    | _ => none)

/-- Model of `list(dir.rglob(name))` being nonempty: some entry strictly
below `p` has final component `name` (Python's `rglob` matches files and
directories alike). -/
def FS.rglobHit (fs : FS) (p : List String) (name : String) : Bool :=
  fs.entries.any (fun e =>
    p.isPrefixOf e.1 && decide (p.length < e.1.length) && (e.1.getLastD "" == name))

/-- Model of Python's `s.lstrip("./")`: remove every leading character that
is a dot or a slash (the argument of `lstrip` is a character set). -/
def pyLstripDotSlash (s : String) : String :=
  ⟨s.toList.dropWhile (fun c => c == '.' || c == '/')⟩

/-- Splitting a character list at `'/'`, mirroring Python's `str.split("/")`
(which never returns an empty list). -/
def splitComps : List Char → List (List Char)
  | [] => [[]]
  | c :: rest =>
    if c == '/' then [] :: splitComps rest
    else
      match splitComps rest with
      | [] => [[c]]
      | h :: t => (c :: h) :: t

/-- Components of a relative path string, as `pathlib` parses them: split at
slashes, dropping empty components and single-dot components. -/
def splitPathComps (s : String) : List String :=
  ((splitComps s.toList).map (fun l => (⟨l⟩ : String))).filter
    (fun c => !(c == "" || c == "."))

/-- Model of Python's format spec `f"{n:05d}"` for a natural number. -/
def pad5 (n : Nat) : String :=
  let s := toString n
  ⟨List.replicate (5 - s.length) '0' ++ s.toList⟩

/-- Scanning replacement of every non-overlapping occurrence of `pat` by
`rep`, left to right, as Python's `str.replace` does.  The fuel argument is
the length of the scanned list, so the recursion is structural. -/
def replaceAux (pat rep : List Char) : List Char → Nat → List Char
  | s, 0 => s
  | [], _ + 1 => []
  | c :: cs, fuel + 1 =>
    if pat.isPrefixOf (c :: cs) then rep ++ replaceAux pat rep ((c :: cs).drop pat.length) fuel
    else c :: replaceAux pat rep cs fuel

/-- Model of Python's `s.replace(pat, rep)` for a nonempty `pat` (the
scripts only ever call it with nonempty patterns). -/
def pyReplace (s pat rep : String) : String :=
  if pat.toList.isEmpty then s
  else ⟨replaceAux pat.toList rep.toList s.toList s.toList.length⟩

/-- Occurrence test: does `pat` occur as a contiguous block somewhere in `s`
(including at the very end when `pat` is empty)?  This mirrors the scan of
`replaceAux` and of Python's `in` operator on strings. -/
def hasOccur (pat : List Char) : List Char → Bool
  | [] => pat.isPrefixOf []
  | c :: cs => pat.isPrefixOf (c :: cs) || hasOccur pat cs

/-- Model of Python's substring test `needle in hay` on strings. -/
def pyStrContains (hay needle : String) : Bool :=
  hasOccur needle.toList hay.toList

/-!
Embedding of `setup_test_data.py` (the dataset subsetter).

Source directories are modelled as an optional list of (filename, data)
pairs (`none` when the cycle directory does not exist); destination
directories as a list of (filename, data) pairs in creation order.  The
data component stands for the opaque bytes `shutil.copy2` transfers.
-/

/-- Fixed tile mapping of `setup_test_data.py` (old id, new id), in the
dictionary's insertion order. -/
def TILE_MAPPING : List (Nat × Nat) := [(58, 1), (59, 2), (73, 3), (72, 4)]

/-- Identifier segment `f"1_{k:05d}_"` used by `rename_tile`. -/
def tileSeg (k : Nat) : String :=
  "1_" ++ pad5 k ++ "_"

/-- Embedding of `rename_tile`: replace every occurrence of the old tile
segment by the new one (Python's `str.replace` replaces all occurrences). -/
def rename_tile (filename : String) (old_tile new_tile : Nat) : String :=
  pyReplace filename (tileSeg old_tile) (tileSeg new_tile)

/-- Matching of the glob pattern `f"1_{old:05d}_*.tif"` for a filename
(no slashes occur in filenames, so `*` is an arbitrary character run). -/
def matchesTilePattern (old_tile : Nat) (name : String) : Bool :=
  (tileSeg old_tile).toList.isPrefixOf name.toList &&
    ".tif".toList.reverse.isPrefixOf name.toList.reverse

/-- Model of `dest_file.exists()` against the modelled destination. -/
def destExists {α : Type} (dest : List (String × α)) (name : String) : Bool :=
  dest.any (fun e => e.1 == name)

/-- One iteration of the inner loop of `copy_cycle`: copy one source file
unless its destination name already exists. -/
def fileStep {α : Type} (p : Nat × Nat) (acc : List (String × α) × Nat)
    (f : String × α) : List (String × α) × Nat :=
  let nn := rename_tile f.1 p.1 p.2
  if destExists acc.1 nn then acc else (acc.1 ++ [(nn, f.2)], acc.2 + 1)

/-- One iteration of the outer loop of `copy_cycle`: process every source
file matching the tile's glob pattern. -/
def pairStep {α : Type} (files : List (String × α))
    (acc : List (String × α) × Nat) (p : Nat × Nat) : List (String × α) × Nat :=
  (files.filter (fun f => matchesTilePattern p.1 f.1)).foldl (fileStep p) acc

/-- Embedding of `copy_cycle`: returns the destination directory contents
after the run together with the number of files copied.  A missing source
cycle directory contributes zero copies and leaves the destination alone. -/
def copy_cycle {α : Type} (src : Option (List (String × α)))
    (dest : List (String × α)) : List (String × α) × Nat :=
  match src with
  | none => (dest, 0)
  | some files => TILE_MAPPING.foldl (pairStep files) (dest, 0)


/-!
Embedding of `scripts/validate_plugins.py` (the plugin validator).

Error messages are modelled as tagged variants carrying the data that the
f-strings of the source interpolate; two messages built from different
format strings or different interpolated data are distinct.
-/

/-- Validation error messages of `validate_plugin`, one constructor per
`errors.append(...)` site in the source. -/
inductive VError where
  | missingClaudePluginDir (plugin_dir : List String)
  | missingPluginJson (claude_plugin_dir : List String)
  | invalidJson (plugin_json_path : List String)
  | missingField (field : String) (plugin_json_path : List String)
  | skillsDirNotFound (skills_dir : List String)
  | noSkillFiles (skills_dir : List String)
deriving DecidableEq

/-- Model of Python's `key in value` for a parsed-JSON value: key lookup on
a dict, element equality on a list, substring test on a string, and a
`TypeError` on the remaining (non-container) values. -/
def pyContains (v : JVal) (key : String) : Except PyErr Bool :=
  match v with
  | .obj flds => .ok (flds.any (fun kv => kv.1 == key))
  | .arr xs => .ok (xs.any (fun x => match x with | .str s => s == key | _ => false))
  | .str s => .ok (pyStrContains s key)
  | _ => .error .typeError

/-- Model of Python's `value.get(key, dflt)`: defaulted dict lookup on a
dict, `AttributeError` on every other value.  Objects model parsed dicts,
whose keys are unique, so first-match lookup is adequate. -/
def pyGet (v : JVal) (key : String) (dflt : JVal) : Except PyErr JVal :=
  match v with
  | .obj flds => .ok ((List.lookup key flds).getD dflt)
  | _ => .error .attributeError

/-- Required descriptor fields, in the order the source checks them. -/
def requiredFields : List String := ["name", "description", "skills"]

/-- The `for field in required_fields` loop of `validate_plugin`, appending
one error per absent field. -/
def requiredLoop (v : JVal) (pj : List String) :
    List String → List VError → Except PyErr (List VError)
  | [], acc => .ok acc
  | f :: rest, acc =>
    match pyContains v f with
    | .error e => .error e
    | .ok b => requiredLoop v pj rest (if b then acc else acc ++ [.missingField f pj])

/-- Resolution of the skills directory in `validate_plugin`:
`plugin_dir / skills_path.lstrip("./")`.  After the lstrip the string has no
leading slash, so the `pathlib` join appends the path's components. -/
def resolveSkillsDir (plugin_dir : List String) (skills_path : String) : List String :=
  plugin_dir ++ splitPathComps (pyLstripDotSlash skills_path)

/-- Embedding of `validate_plugin`: the per-plugin validation.  `.ok errs`
models a normal return of the error list; `.error e` models an uncaught
exception terminating the process. -/
def validate_plugin (fs : FS) (plugin_dir : List String) : Except PyErr (List VError) :=
  if fs.isDir (plugin_dir ++ [".claude-plugin"]) = false then
    .ok [.missingClaudePluginDir plugin_dir]
  else
    match fs.fileContent (plugin_dir ++ [".claude-plugin", "plugin.json"]) with
    | none => .ok [.missingPluginJson (plugin_dir ++ [".claude-plugin"])]
    | some .notJson => .ok [.invalidJson (plugin_dir ++ [".claude-plugin", "plugin.json"])]
    | some (.jsonVal v) =>
      match requiredLoop v (plugin_dir ++ [".claude-plugin", "plugin.json"]) requiredFields [] with
      | .error e => .error e
      | .ok errs =>
        match pyGet v "skills" (.str "./skills") with
        | .error e => .error e
        | .ok sv =>
          match sv with
          | .str s =>
            if fs.isDir (resolveSkillsDir plugin_dir s) = false then
              .ok (errs ++ [.skillsDirNotFound (resolveSkillsDir plugin_dir s)])
            else if fs.rglobHit (resolveSkillsDir plugin_dir s) "SKILL.md" = false then
              .ok (errs ++ [.noSkillFiles (resolveSkillsDir plugin_dir s)])
            else .ok errs
          | _ => .error .attributeError

/-- Observable state of the validator's `main`: the running found-plugin
count, the accumulated error list, and whether an uncaught exception has
terminated the traversal. -/
structure MainResult where
  plugins_found : Nat
  all_errors : List VError
  crashed : Bool
deriving DecidableEq

/-- One candidate plugin directory in `main`'s traversal: plugins are
counted and validated only when they contain a `.claude-plugin` directory;
after a crash nothing further runs. -/
def stepPlugin (fs : FS) (st : MainResult) (p : List String) : MainResult :=
  if st.crashed then st
  else if fs.isDir (p ++ [".claude-plugin"]) then
    match validate_plugin fs p with
    | .ok errs => ⟨st.plugins_found + 1, st.all_errors ++ errs, false⟩
    | .error _ => ⟨st.plugins_found + 1, st.all_errors, true⟩
  else st

/-- Embedding of the validator's `main`: exit immediately with success when
the plugins directory is missing, otherwise traverse categories and their
plugin directories. -/
def runValidator (fs : FS) (plugins_dir : List String) : MainResult :=
  if fs.isDir plugins_dir = false then ⟨0, [], false⟩
  else
    (fs.childDirs plugins_dir).foldl
      (fun st c =>
        (fs.childDirs (plugins_dir ++ [c])).foldl
          (fun st2 n => stepPlugin fs st2 (plugins_dir ++ [c, n])) st)
      ⟨0, [], false⟩

/-- Process exit code of the validator: 1 on an uncaught exception (Python
exits 1 on a traceback), else 1 when any error was collected, else 0. -/
def exitCode (r : MainResult) : Nat :=
  if r.crashed then 1 else if r.all_errors.isEmpty then 0 else 1

/-- Does `validate_plugin` return normally on this plugin directory? -/
def vOk (fs : FS) (p : List String) : Bool :=
  match validate_plugin fs p with
  | .ok _ => true
  | .error _ => false

/-- Errors returned by a normal `validate_plugin` run (empty on a crash). -/
def vErrs (fs : FS) (p : List String) : List VError :=
  match validate_plugin fs p with
  | .ok errs => errs
  | .error _ => []

/-- Candidate plugin directories of the traversal, in order. -/
def pluginPaths (fs : FS) (pd : List String) : List (List String) :=
  (fs.childDirs pd).flatMap
    (fun c => (fs.childDirs (pd ++ [c])).map (fun n => pd ++ [c, n]))

/-- Plugin directories the validator counts as found: those containing a
`.claude-plugin` subdirectory (none when the plugins directory is absent). -/
def foundPlugins (fs : FS) (pd : List String) : List (List String) :=
  if fs.isDir pd = false then []
  else (pluginPaths fs pd).filter (fun p => fs.isDir (p ++ [".claude-plugin"]))


/-- Does a validation error come from the missing-required-field check? -/
def isMissingFieldError : VError → Bool
  | .missingField _ _ => true
  | _ => false

/-- Registry used to refute the literal C1 (and to exhibit the C6 code
bug): one plugin whose descriptor has `name` and `description` but a
numeric `skills` value. -/
def fsCrash : FS :=
  ⟨[(["root", "plugins"], .dir),
    (["root", "plugins", "general"], .dir),
    (["root", "plugins", "general", "demo"], .dir),
    (["root", "plugins", "general", "demo", ".claude-plugin"], .dir),
    (["root", "plugins", "general", "demo", ".claude-plugin", "plugin.json"],
      .file (.jsonVal (.obj [("name", .str "demo"), ("description", .str "d"),
        ("skills", .num 7)])))]⟩

/-- Registry with one fully valid plugin, used as concrete witness input. -/
def fsValid : FS :=
  ⟨[(["root", "plugins"], .dir),
    (["root", "plugins", "general"], .dir),
    (["root", "plugins", "general", "demo"], .dir),
    (["root", "plugins", "general", "demo", ".claude-plugin"], .dir),
    (["root", "plugins", "general", "demo", ".claude-plugin", "plugin.json"],
      .file (.jsonVal (.obj [("name", .str "demo"), ("description", .str "d"),
        ("skills", .str "./skills")]))),
    (["root", "plugins", "general", "demo", "skills"], .dir),
    (["root", "plugins", "general", "demo", "skills", "SKILL.md"], .file .notJson)]⟩

/-- Registry containing a plugin directory with no `.claude-plugin`
subdirectory besides a valid plugin, as concrete witness input. -/
def fsMixed : FS :=
  ⟨[(["root", "plugins"], .dir),
    (["root", "plugins", "general"], .dir),
    (["root", "plugins", "general", "bare"], .dir),
    (["root", "plugins", "general", "demo"], .dir),
    (["root", "plugins", "general", "demo", ".claude-plugin"], .dir),
    (["root", "plugins", "general", "demo", ".claude-plugin", "plugin.json"],
      .file (.jsonVal (.obj [("name", .str "demo"), ("description", .str "d"),
        ("skills", .str "./skills")]))),
    (["root", "plugins", "general", "demo", "skills"], .dir),
    (["root", "plugins", "general", "demo", "skills", "SKILL.md"], .file .notJson)]⟩

/-- Registry whose only plugin has a descriptor consisting solely of a
numeric `skills` field, so both `name` and `description` are missing. -/
def fsTwoMissing : FS :=
  ⟨[(["root", "plugins"], .dir),
    (["root", "plugins", "general"], .dir),
    (["root", "plugins", "general", "demo"], .dir),
    (["root", "plugins", "general", "demo", ".claude-plugin"], .dir),
    (["root", "plugins", "general", "demo", ".claude-plugin", "plugin.json"],
      .file (.jsonVal (.obj [("skills", .num 0)])))]⟩

/-- Registry whose only plugin's descriptor has only a `name` field. -/
def fsOnlyName : FS :=
  ⟨[(["root", "plugins"], .dir),
    (["root", "plugins", "general"], .dir),
    (["root", "plugins", "general", "demo"], .dir),
    (["root", "plugins", "general", "demo", ".claude-plugin"], .dir),
    (["root", "plugins", "general", "demo", ".claude-plugin", "plugin.json"],
      .file (.jsonVal (.obj [("name", .str "demo")])))]⟩

/-- Does the string avoid starting with a dot or slash character? -/
def headNotDotSlash (s : String) : Bool :=
  match s.toList with
  | [] => true
  | c :: _ => !(c == '.' || c == '/')

/-- Modelled from the spec (the refinement target for the skills-path
resolution): the plugin directory joined with the declared relative path,
`pathlib` dropping empty and single-dot components of the joined path. -/
def specSkillsDir (plugin_dir : List String) (declared : String) : List String :=
  plugin_dir ++ splitPathComps declared

/-- Registry whose plugin declares `skills` as the dot-initial relative
path `.skills`, which exists and contains a marker file. -/
def fsDotSkills : FS :=
  ⟨[(["cat", "demo"], .dir),
    (["cat", "demo", ".claude-plugin"], .dir),
    (["cat", "demo", ".claude-plugin", "plugin.json"],
      .file (.jsonVal (.obj [("name", .str "demo"), ("description", .str "d"),
        ("skills", .str ".skills")]))),
    (["cat", "demo", ".skills"], .dir),
    (["cat", "demo", ".skills", "SKILL.md"], .file .notJson)]⟩

/-!
Embedding of `scripts/generate_marketplace.py` (the marketplace
aggregator).
-/

/-- One record of the generated marketplace plugin list. -/
structure MRecord where
  name : JVal
  version : JVal
  description : JVal
  author : JVal
  category : String
  path : String

/-- Path of a candidate plugin's descriptor file. -/
def descPath (pd : List String) (c n : String) : List String :=
  pd ++ [c, n, ".claude-plugin", "plugin.json"]

/-- Model of `str(plugin_dir.relative_to(plugins_dir.parent))`: the plugin
directory's path relative to the parent of the plugins directory. -/
def relPathStr (pd : List String) (c n : String) : String :=
  String.intercalate "/" (pd.drop (pd.length - 1) ++ [c, n])

/-- Record built by `collect_plugins` from a parsed descriptor object:
`dict.get` lookups with the source's defaults (`name` defaults to Python's
`None`, serialized as JSON null). -/
def mkRecord (pd : List String) (c n : String) (flds : List (String × JVal)) : MRecord :=
  { name := (List.lookup "name" flds).getD .null,
    version := (List.lookup "version" flds).getD (.str "1.0.0"),
    description := (List.lookup "description" flds).getD (.str ""),
    author := (List.lookup "author" flds).getD (.obj []),
    category := c,
    path := relPathStr pd c n }

/-- One candidate plugin of `collect_plugins`: skip when the descriptor
file is absent, warn and skip when it is invalid JSON (`JSONDecodeError`
is caught), build a record when it parses to an object, and crash with an
uncaught `AttributeError` when it parses to any other JSON value (only
`JSONDecodeError` and `IOError` are caught, and `.get` is attempted on the
parsed value).  The accumulator carries the record list and the warned
descriptor paths. -/
def collectStep (fs : FS) (pd : List String) (c : String)
    (acc : List MRecord × List (List String)) (n : String) :
    Except PyErr (List MRecord × List (List String)) :=
  match fs.fileContent (descPath pd c n) with
  | none => .ok acc
  | some .notJson => .ok (acc.1, acc.2 ++ [descPath pd c n])
  | some (.jsonVal (.obj flds)) => .ok (acc.1 ++ [mkRecord pd c n flds], acc.2)
  | some (.jsonVal _) => .error .attributeError

/-- Inner loop of `collect_plugins` over one category's plugin directories. -/
def collectInner (fs : FS) (pd : List String) (c : String) :
    List String → List MRecord × List (List String) →
      Except PyErr (List MRecord × List (List String))
  | [], acc => .ok acc
  | n :: rest, acc =>
    match collectStep fs pd c acc n with
    | .error e => .error e
    | .ok acc2 => collectInner fs pd c rest acc2

/-- Outer loop of `collect_plugins` over the category directories. -/
def collectOuter (fs : FS) (pd : List String) :
    List String → List MRecord × List (List String) →
      Except PyErr (List MRecord × List (List String))
  | [], acc => .ok acc
  | c :: rest, acc =>
    match collectInner fs pd c (fs.childDirs (pd ++ [c])) acc with
    | .error e => .error e
    | .ok acc2 => collectOuter fs pd rest acc2

/-- Embedding of `collect_plugins`: an empty result when the plugins
directory is missing, otherwise the two-level traversal. -/
def collect_plugins (fs : FS) (pd : List String) :
    Except PyErr (List MRecord × List (List String)) :=
  if fs.isDir pd = false then .ok ([], [])
  else collectOuter fs pd (fs.childDirs pd) ([], [])

/-- The repository URL literal written into the generated document. -/
def repoUrl : String := "https://github.com/smith-cop/Skills_Registry"

/-- The generated marketplace document. -/
structure Marketplace where
  version : String
  generated_at : String
  repository : String
  plugins : List MRecord

/-- Embedding of the aggregator's `main`: build the document (the
timestamp string is `datetime.utcnow().isoformat()`, passed as `now`) and
report the plugin count. -/
def generateMarketplace (fs : FS) (pd : List String) (now : String) :
    Except PyErr (Marketplace × Nat) :=
  match collect_plugins fs pd with
  | .error e => .error e
  | .ok (recs, _) =>
    .ok (⟨"1.0.0", now ++ "Z", repoUrl, recs⟩, recs.length)

/-- Is the descriptor of this candidate plugin absent, invalid JSON, or a
JSON object (the contents the aggregator survives)? -/
def descOk (fs : FS) (pd : List String) (c n : String) : Bool :=
  match fs.fileContent (descPath pd c n) with
  | some (.jsonVal v) => v.isObj
  | _ => true

/-- Does this candidate plugin have a descriptor file parsing to a JSON
object (a valid descriptor)? -/
def isObjDesc (fs : FS) (pd : List String) (c n : String) : Bool :=
  match fs.fileContent (descPath pd c n) with
  | some (.jsonVal (.obj _)) => true
  | _ => false

/-- Does this candidate plugin have a descriptor file that is invalid JSON? -/
def isBadJsonDesc (fs : FS) (pd : List String) (c n : String) : Bool :=
  match fs.fileContent (descPath pd c n) with
  | some .notJson => true
  | _ => false

/-- Fields of a valid descriptor (empty for the other cases). -/
def objFieldsOf (fs : FS) (pd : List String) (c n : String) : List (String × JVal) :=
  match fs.fileContent (descPath pd c n) with
  | some (.jsonVal (.obj flds)) => flds
  | _ => []

/-- Every parseable descriptor in the tree is a JSON object (the condition
under which the aggregator cannot crash). -/
def goodDescs (fs : FS) (pd : List String) : Prop :=
  ∀ c ∈ fs.childDirs pd, ∀ n ∈ fs.childDirs (pd ++ [c]), descOk fs pd c n = true

instance (fs : FS) (pd : List String) : Decidable (goodDescs fs pd) := by
  unfold goodDescs
  infer_instance

/-- Modelled from the spec (the refinement target for aggregator
completeness): a record per the spec's words — `name` verbatim (null when
absent), `version` defaulting to the fixed literal, `description` verbatim
(empty when absent), `author` defaulting to the empty object, the category
directory name, and the path relative to the registry root's parent. -/
def specRecord (fs : FS) (pd : List String) (cn : String × String) : MRecord :=
  { name := (List.lookup "name" (objFieldsOf fs pd cn.1 cn.2)).getD .null,
    version := (List.lookup "version" (objFieldsOf fs pd cn.1 cn.2)).getD (.str "1.0.0"),
    description := (List.lookup "description" (objFieldsOf fs pd cn.1 cn.2)).getD (.str ""),
    author := (List.lookup "author" (objFieldsOf fs pd cn.1 cn.2)).getD (.obj []),
    category := cn.1,
    path := relPathStr pd cn.1 cn.2 }

/-- The (category, plugin) pairs holding a valid descriptor, in traversal
order. -/
def validPlugins (fs : FS) (pd : List String) : List (String × String) :=
  if fs.isDir pd = false then []
  else (fs.childDirs pd).flatMap
    (fun c => ((fs.childDirs (pd ++ [c])).filter (fun n => isObjDesc fs pd c n)).map
      (fun n => (c, n)))

/-- Descriptor paths warned about (invalid JSON), in traversal order. -/
def specWarns (fs : FS) (pd : List String) : List (List String) :=
  if fs.isDir pd = false then []
  else (fs.childDirs pd).flatMap
    (fun c => ((fs.childDirs (pd ++ [c])).filter (fun n => isBadJsonDesc fs pd c n)).map
      (fun n => descPath pd c n))

/-- Registry with one valid plugin and one plugin whose descriptor parses
to a JSON string (non-object JSON). -/
def fsNonObj : FS :=
  ⟨[(["root", "plugins"], .dir),
    (["root", "plugins", "general"], .dir),
    (["root", "plugins", "general", "good"], .dir),
    (["root", "plugins", "general", "good", ".claude-plugin"], .dir),
    (["root", "plugins", "general", "good", ".claude-plugin", "plugin.json"],
      .file (.jsonVal (.obj [("name", .str "good"), ("description", .str "d")]))),
    (["root", "plugins", "general", "weird"], .dir),
    (["root", "plugins", "general", "weird", ".claude-plugin"], .dir),
    (["root", "plugins", "general", "weird", ".claude-plugin", "plugin.json"],
      .file (.jsonVal (.str "oops")))]⟩

/-- Registry with one invalid-JSON descriptor and one valid plugin. -/
def fsBadJson : FS :=
  ⟨[(["root", "plugins"], .dir),
    (["root", "plugins", "general"], .dir),
    (["root", "plugins", "general", "bad"], .dir),
    (["root", "plugins", "general", "bad", ".claude-plugin"], .dir),
    (["root", "plugins", "general", "bad", ".claude-plugin", "plugin.json"],
      .file .notJson),
    (["root", "plugins", "general", "good"], .dir),
    (["root", "plugins", "general", "good", ".claude-plugin"], .dir),
    (["root", "plugins", "general", "good", ".claude-plugin", "plugin.json"],
      .file (.jsonVal (.obj [("name", .str "good"), ("description", .str "d")])))]⟩

/-- Registry with an invalid-JSON descriptor, a non-object JSON
descriptor, and a valid plugin, in that traversal order. -/
def fsBadAndNonObj : FS :=
  ⟨[(["root", "plugins"], .dir),
    (["root", "plugins", "general"], .dir),
    (["root", "plugins", "general", "bad"], .dir),
    (["root", "plugins", "general", "bad", ".claude-plugin"], .dir),
    (["root", "plugins", "general", "bad", ".claude-plugin", "plugin.json"],
      .file .notJson),
    (["root", "plugins", "general", "weird"], .dir),
    (["root", "plugins", "general", "weird", ".claude-plugin"], .dir),
    (["root", "plugins", "general", "weird", ".claude-plugin", "plugin.json"],
      .file (.jsonVal (.str "oops"))),
    (["root", "plugins", "general", "zgood"], .dir),
    (["root", "plugins", "general", "zgood", ".claude-plugin"], .dir),
    (["root", "plugins", "general", "zgood", ".claude-plugin", "plugin.json"],
      .file (.jsonVal (.obj [("name", .str "zgood"), ("description", .str "d")])))]⟩

/-! Lemmas about `replaceAux` and the copy loops. -/

lemma isPrefixOf_append_self (pat s : List Char) : pat.isPrefixOf (pat ++ s) = true := by
  induction pat with
  | nil => simp [List.isPrefixOf]
  | cons c cs ih => simp [List.isPrefixOf, ih]

lemma replaceAux_head_match (pat rep s : List Char) (fuel : Nat) (hne : pat ≠ []) :
    replaceAux pat rep (pat ++ s) (fuel + 1) = rep ++ replaceAux pat rep s fuel := by
  obtain ⟨c, cs, rfl⟩ : ∃ c cs, pat = c :: cs := by
    cases pat with
    | nil => exact absurd rfl hne
    | cons c cs => exact ⟨c, cs, rfl⟩
  rw [List.cons_append]
  simp only [replaceAux]
  rw [if_pos]
  · rw [List.length_cons, List.drop_succ_cons, List.drop_left]
  · rw [← List.cons_append]
    exact isPrefixOf_append_self (c :: cs) s

lemma replaceAux_no_occur (pat rep : List Char) (s : List Char) :
    ∀ fuel, hasOccur pat s = false → s.length ≤ fuel → replaceAux pat rep s fuel = s := by
  induction s with
  | nil => intro fuel _ _; cases fuel <;> rfl
  | cons c cs ih =>
    intro fuel hno hlen
    cases fuel with
    | zero => simp at hlen
    | succ f =>
      have hsplit : pat.isPrefixOf (c :: cs) = false ∧ hasOccur pat cs = false := by
        simpa [hasOccur] using hno
      simp only [replaceAux, hsplit.1, Bool.false_eq_true, if_false]
      rw [ih f hsplit.2 (by simpa using Nat.le_of_succ_le_succ hlen)]

lemma mk_append_mk (a b : String) : (⟨a.toList ++ b.toList⟩ : String) = a ++ b := by
  cases a; cases b; rfl

lemma tileSeg_toList_ne_nil (k : Nat) : (tileSeg k).toList ≠ [] := by
  show (tileSeg k).data ≠ []
  simp [tileSeg, String.data_append]

/-- C3 (amended): for every mapping pair and every filename built from the
old tile segment and a remainder in which the old segment does not occur
again, renaming substitutes the tile-id segment and preserves the rest.
(As literally stated the claim fails when the remainder itself contains the
old segment, since `str.replace` replaces all occurrences.) -/
theorem rename_tile_remap (old_tile new_tile : Nat) (rest : String)
    (hm : (old_tile, new_tile) ∈ TILE_MAPPING)
    (hno : hasOccur (tileSeg old_tile).toList rest.toList = false) :
    rename_tile (tileSeg old_tile ++ rest) old_tile new_tile = tileSeg new_tile ++ rest := by
  have hne := tileSeg_toList_ne_nil old_tile
  unfold rename_tile pyReplace
  rw [if_neg (by simpa using hne)]
  have hdata : (tileSeg old_tile ++ rest).toList = (tileSeg old_tile).toList ++ rest.toList :=
    String.data_append _ _
  rw [hdata]
  obtain ⟨c, cs, hcc⟩ : ∃ c cs, (tileSeg old_tile).toList = c :: cs := by
    cases h : (tileSeg old_tile).toList with
    | nil => exact absurd h hne
    | cons c cs => exact ⟨c, cs, rfl⟩
  have hlen : ((tileSeg old_tile).toList ++ rest.toList).length =
      (cs.length + rest.toList.length) + 1 := by
    rw [hcc]; simp only [List.length_append, List.length_cons]; omega
  rw [hlen, replaceAux_head_match _ _ _ _ hne,
    replaceAux_no_occur _ _ _ _ hno (Nat.le_add_left _ _)]
  exact mk_append_mk _ _

/-- C3 counterexample: a source filename whose remainder itself contains the
old tile segment; the rename changes the remainder too, so the destination
does not differ from the source only in the leading tile-id segment. -/
theorem rename_tile_cex :
    "1_00058_1_00058_CH1.tif" = tileSeg 58 ++ "1_00058_CH1.tif" ∧
    rename_tile "1_00058_1_00058_CH1.tif" 58 1 ≠ tileSeg 1 ++ "1_00058_CH1.tif" ∧
    rename_tile "1_00058_1_00058_CH1.tif" 58 1 = "1_00001_1_00001_CH1.tif" :=
  ⟨by decide, by decide, by decide⟩

/-- Witness for `rename_tile_remap` at a concrete mapping pair and filename. -/
theorem rename_tile_remap_witness :
    ((58, 1) ∈ TILE_MAPPING) ∧
    rename_tile (tileSeg 58 ++ "Z001_CH1.tif") 58 1 = tileSeg 1 ++ "Z001_CH1.tif" :=
  ⟨by decide, rename_tile_remap 58 1 "Z001_CH1.tif" (by decide) (by decide)⟩

lemma destExists_append {α : Type} (l t : List (String × α)) (n : String)
    (h : destExists l n = true) : destExists (l ++ t) n = true := by
  simp [destExists, List.any_append] at h ⊢
  exact Or.inl h

lemma fileStep_extends {α : Type} (p : Nat × Nat) (acc : List (String × α) × Nat)
    (f : String × α) : ∃ t, (fileStep p acc f).1 = acc.1 ++ t := by
  unfold fileStep
  by_cases h : destExists acc.1 (rename_tile f.1 p.1 p.2) = true
  · exact ⟨[], by simp [h]⟩
  · exact ⟨[(rename_tile f.1 p.1 p.2, f.2)], by simp [h]⟩

lemma foldl_fileStep_extends {α : Type} (p : Nat × Nat) :
    ∀ (fl : List (String × α)) (acc), ∃ t, (fl.foldl (fileStep p) acc).1 = acc.1 ++ t := by
  intro fl
  induction fl with
  | nil => exact fun acc => ⟨[], by simp⟩
  | cons f fl ih =>
    intro acc
    obtain ⟨t1, h1⟩ := fileStep_extends p acc f
    obtain ⟨t2, h2⟩ := ih (fileStep p acc f)
    exact ⟨t1 ++ t2, by rw [List.foldl_cons, h2, h1, List.append_assoc]⟩

lemma foldl_pairStep_extends {α : Type} (files : List (String × α)) :
    ∀ (pairs : List (Nat × Nat)) (acc),
      ∃ t, (pairs.foldl (pairStep files) acc).1 = acc.1 ++ t := by
  intro pairs
  induction pairs with
  | nil => exact fun acc => ⟨[], by simp⟩
  | cons q ql ih =>
    intro acc
    obtain ⟨t1, h1⟩ := foldl_fileStep_extends q
      (files.filter (fun f => matchesTilePattern q.1 f.1)) acc
    obtain ⟨t2, h2⟩ := ih (pairStep files acc q)
    exact ⟨t1 ++ t2, by
      rw [List.foldl_cons, h2, show pairStep files acc q =
        (files.filter (fun f => matchesTilePattern q.1 f.1)).foldl (fileStep q) acc from rfl,
        h1, List.append_assoc]⟩

lemma fileStep_present {α : Type} (p : Nat × Nat) (acc : List (String × α) × Nat)
    (f : String × α) : destExists (fileStep p acc f).1 (rename_tile f.1 p.1 p.2) = true := by
  unfold fileStep destExists
  by_cases h : acc.1.any (fun e => e.1 == rename_tile f.1 p.1 p.2) = true
  · simp [h]
  · simp [h, List.any_append]

lemma foldl_fileStep_present {α : Type} (p : Nat × Nat) :
    ∀ (fl : List (String × α)) (acc) (f : String × α), f ∈ fl →
      destExists ((fl.foldl (fileStep p) acc).1) (rename_tile f.1 p.1 p.2) = true := by
  intro fl
  induction fl with
  | nil => intro acc f h; cases h
  | cons g gl ih =>
    intro acc f hmem
    rcases List.mem_cons.mp hmem with rfl | h
    · rw [List.foldl_cons]
      obtain ⟨t, ht⟩ := foldl_fileStep_extends p gl (fileStep p acc f)
      rw [ht]
      exact destExists_append _ _ _ (fileStep_present p acc f)
    · rw [List.foldl_cons]
      exact ih (fileStep p acc g) f h

lemma foldl_pairStep_present {α : Type} (files : List (String × α)) :
    ∀ (pairs : List (Nat × Nat)) (acc) (p : Nat × Nat) (f : String × α), p ∈ pairs →
      f ∈ files.filter (fun f => matchesTilePattern p.1 f.1) →
      destExists ((pairs.foldl (pairStep files) acc).1) (rename_tile f.1 p.1 p.2) = true := by
  intro pairs
  induction pairs with
  | nil => intro acc p f h; cases h
  | cons q ql ih =>
    intro acc p f hp hf
    rcases List.mem_cons.mp hp with rfl | hp'
    · rw [List.foldl_cons]
      obtain ⟨t, ht⟩ := foldl_pairStep_extends files ql (pairStep files acc p)
      rw [ht]
      exact destExists_append _ _ _ (foldl_fileStep_present p _ acc f hf)
    · rw [List.foldl_cons]
      exact ih (pairStep files acc q) p f hp' hf

lemma foldl_fileStep_stable {α : Type} (p : Nat × Nat) :
    ∀ (fl : List (String × α)) (acc),
      (∀ f ∈ fl, destExists acc.1 (rename_tile f.1 p.1 p.2) = true) →
      fl.foldl (fileStep p) acc = acc := by
  intro fl
  induction fl with
  | nil => intro acc _; rfl
  | cons g gl ih =>
    intro acc h
    have hg := h g (List.mem_cons_self _ _)
    have hstep : fileStep p acc g = acc := by unfold fileStep; simp [hg]
    rw [List.foldl_cons, hstep]
    exact ih acc (fun f hf => h f (List.mem_cons_of_mem _ hf))

lemma foldl_pairStep_stable {α : Type} (files : List (String × α)) :
    ∀ (pairs : List (Nat × Nat)) (acc),
      (∀ p ∈ pairs, ∀ f ∈ files.filter (fun f => matchesTilePattern p.1 f.1),
        destExists acc.1 (rename_tile f.1 p.1 p.2) = true) →
      pairs.foldl (pairStep files) acc = acc := by
  intro pairs
  induction pairs with
  | nil => intro acc _; rfl
  | cons q ql ih =>
    intro acc h
    have hstep : pairStep files acc q = acc := by
      exact foldl_fileStep_stable q _ acc (fun f hf => h q (List.mem_cons_self _ _) f hf)
    rw [List.foldl_cons, hstep]
    exact ih acc (fun p hp f hf => h p (List.mem_cons_of_mem _ hp) f hf)

/-- C4: running `copy_cycle` a second time over the same source and the
destination state produced by the first run copies zero files and leaves
the destination contents (names and data, in order) identical; moreover a
run only ever appends to the destination, so existing destination files
are never overwritten. -/
theorem copy_cycle_idempotent {α : Type} (src : Option (List (String × α)))
    (dest : List (String × α)) :
    copy_cycle src (copy_cycle src dest).1 = ((copy_cycle src dest).1, 0) ∧
    ∃ t, (copy_cycle src dest).1 = dest ++ t := by
  cases src with
  | none => exact ⟨rfl, ⟨[], by simp [copy_cycle]⟩⟩
  | some files =>
    constructor
    · show TILE_MAPPING.foldl (pairStep files) ((copy_cycle (some files) dest).1, 0) = _
      apply foldl_pairStep_stable
      intro p hp f hf
      show destExists ((copy_cycle (some files) dest).1) (rename_tile f.1 p.1 p.2) = true
      exact foldl_pairStep_present files TILE_MAPPING (dest, 0) p f hp hf
    · exact foldl_pairStep_extends files TILE_MAPPING (dest, 0)

/-! Lemmas about the validator. -/

lemma requiredLoop_obj (flds : List (String × JVal)) (pj : List String) :
    ∀ (fields : List String) (acc : List VError),
      requiredLoop (.obj flds) pj fields acc =
        .ok (acc ++ (fields.filter (fun f => !(flds.any (fun kv => kv.1 == f)))).map
          (fun f => VError.missingField f pj)) := by
  intro fields
  induction fields with
  | nil => intro acc; simp [requiredLoop]
  | cons f rest ih =>
    intro acc
    simp only [requiredLoop, pyContains]
    by_cases h : flds.any (fun kv => kv.1 == f) = true
    · rw [if_pos h, ih, List.filter_cons]
      simp [h]
    · rw [if_neg h, ih, List.filter_cons]
      have h' : flds.any (fun kv => kv.1 == f) = false := by
        revert h; cases flds.any (fun kv => kv.1 == f) <;> simp
      simp [h']

lemma requiredLoop_no_mc (v : JVal) (pj : List String) :
    ∀ (fields : List String) (acc res : List VError),
      requiredLoop v pj fields acc = .ok res →
      (∀ q, VError.missingClaudePluginDir q ∉ acc) →
      ∀ q, VError.missingClaudePluginDir q ∉ res := by
  intro fields
  induction fields with
  | nil =>
    intro acc res heq hacc
    cases heq
    exact hacc
  | cons f rest ih =>
    intro acc res heq hacc
    simp only [requiredLoop] at heq
    cases hpc : pyContains v f with
    | error e => rw [hpc] at heq; cases heq
    | ok b =>
      rw [hpc] at heq
      refine ih _ res heq ?_
      intro q hq
      cases b with
      | true => exact hacc q (by simpa using hq)
      | false => exact hacc q (by simpa using hq)

lemma validate_plugin_no_missing_dir (fs : FS) (p : List String)
    (h : fs.isDir (p ++ [".claude-plugin"]) = true) :
    ∀ errs, validate_plugin fs p = .ok errs →
      ∀ q, VError.missingClaudePluginDir q ∉ errs := by
  intro errs heq q
  unfold validate_plugin at heq
  rw [h] at heq
  simp only [Bool.true_eq_false, if_false] at heq
  split at heq
  · cases heq; simp
  · cases heq; simp
  · rename_i v hfc
    cases hrl : requiredLoop v (p ++ [".claude-plugin", "plugin.json"]) requiredFields []
      with
    | error e => rw [hrl] at heq; cases heq
    | ok errs1 =>
      rw [hrl] at heq
      have hno1 : ∀ q, VError.missingClaudePluginDir q ∉ errs1 :=
        requiredLoop_no_mc v _ requiredFields [] errs1 hrl (by simp)
      cases hg : pyGet v "skills" (.str "./skills") with
      | error e => rw [hg] at heq; cases heq
      | ok sv =>
        rw [hg] at heq
        cases sv with
        | str s =>
          simp only at heq
          split at heq
          · cases heq
            intro hmem
            rcases List.mem_append.mp hmem with h1 | h1
            · exact hno1 q h1
            · simp at h1
          · split at heq
            · cases heq
              intro hmem
              rcases List.mem_append.mp hmem with h1 | h1
              · exact hno1 q h1
              · simp at h1
            · cases heq
              exact hno1 q
        | null => cases heq
        | bool b => cases heq
        | num n => cases heq
        | arr xs => cases heq
        | obj flds => cases heq

lemma foldl_nested_eq_flatMap {β γ δ σ : Type} (g : β → List γ) (h : β → γ → δ)
    (step : σ → δ → σ) :
    ∀ (l : List β) (st : σ),
      l.foldl (fun st1 c => (g c).foldl (fun st2 n => step st2 (h c n)) st1) st =
        (l.flatMap (fun c => (g c).map (h c))).foldl step st := by
  intro l
  induction l with
  | nil => intro st; rfl
  | cons c cl ih =>
    intro st
    rw [List.foldl_cons, List.flatMap_cons, List.foldl_append, List.foldl_map, ih]

lemma runValidator_eq_foldl (fs : FS) (pd : List String) (h : fs.isDir pd = true) :
    runValidator fs pd = (pluginPaths fs pd).foldl (stepPlugin fs) ⟨0, [], false⟩ := by
  unfold runValidator pluginPaths
  rw [h]
  simp only [Bool.true_eq_false, if_false]
  exact foldl_nested_eq_flatMap (fun c => fs.childDirs (pd ++ [c]))
    (fun c n => pd ++ [c, n]) (stepPlugin fs) (fs.childDirs pd) ⟨0, [], false⟩

lemma stepPlugin_crashed (fs : FS) (st : MainResult) (p : List String)
    (h : st.crashed = true) : stepPlugin fs st p = st := by
  unfold stepPlugin
  rw [h]
  simp

lemma foldl_stepPlugin_crashed (fs : FS) :
    ∀ (L : List (List String)) (st : MainResult), st.crashed = true →
      L.foldl (stepPlugin fs) st = st := by
  intro L
  induction L with
  | nil => intro st _; rfl
  | cons p L ih =>
    intro st h
    rw [List.foldl_cons, stepPlugin_crashed fs st p h, ih st h]

lemma foldl_stepPlugin_ok (fs : FS) :
    ∀ (L : List (List String)) (st : MainResult), st.crashed = false →
      (∀ p ∈ L, fs.isDir (p ++ [".claude-plugin"]) = true → vOk fs p = true) →
      L.foldl (stepPlugin fs) st =
        ⟨st.plugins_found +
            (L.filter (fun p => fs.isDir (p ++ [".claude-plugin"]))).length,
          st.all_errors ++
            (L.filter (fun p => fs.isDir (p ++ [".claude-plugin"]))).flatMap (vErrs fs),
          false⟩ := by
  intro L
  induction L with
  | nil =>
    intro st hcr _
    cases st with
    | mk pf errs cr => cases hcr; simp
  | cons p L ih =>
    intro st hcr hok
    rw [List.foldl_cons, List.filter_cons]
    by_cases hd : fs.isDir (p ++ [".claude-plugin"]) = true
    · have hvok := hok p (List.mem_cons_self _ _) hd
      cases hv : validate_plugin fs p with
      | error e => rw [vOk, hv] at hvok; cases hvok
      | ok errs =>
        have hstep : stepPlugin fs st p =
            ⟨st.plugins_found + 1, st.all_errors ++ errs, false⟩ := by
          unfold stepPlugin
          rw [hcr, hd, hv]
          simp
        rw [hstep, ih ⟨st.plugins_found + 1, st.all_errors ++ errs, false⟩ rfl
          (fun q hq hdq => hok q (List.mem_cons_of_mem _ hq) hdq)]
        have hverr : vErrs fs p = errs := by rw [vErrs, hv]
        simp [hd, hverr, List.flatMap_cons, Nat.add_assoc, Nat.add_comm 1]
    · have hd' : fs.isDir (p ++ [".claude-plugin"]) = false := by
        revert hd; cases fs.isDir (p ++ [".claude-plugin"]) <;> simp
      have hstep : stepPlugin fs st p = st := by
        unfold stepPlugin
        rw [hcr, hd']
        simp
      rw [hstep, ih st hcr (fun q hq hdq => hok q (List.mem_cons_of_mem _ hq) hdq)]
      simp [hd']

lemma foldl_stepPlugin_no_mc (fs : FS) :
    ∀ (L : List (List String)) (st : MainResult),
      (∀ q, VError.missingClaudePluginDir q ∉ st.all_errors) →
      ∀ q, VError.missingClaudePluginDir q ∉ (L.foldl (stepPlugin fs) st).all_errors := by
  intro L
  induction L with
  | nil => intro st h; exact h
  | cons p L ih =>
    intro st h
    rw [List.foldl_cons]
    refine ih (stepPlugin fs st p) ?_
    intro q
    unfold stepPlugin
    by_cases hcr : st.crashed = true
    · rw [hcr]; simpa using h q
    · have hcr' : st.crashed = false := by revert hcr; cases st.crashed <;> simp
      rw [hcr']
      by_cases hd : fs.isDir (p ++ [".claude-plugin"]) = true
      · rw [hd]
        cases hv : validate_plugin fs p with
        | error e => simpa using h q
        | ok errs =>
          simp only [if_true]
          intro hmem
          rcases List.mem_append.mp (by simpa using hmem) with h1 | h1
          · exact h q h1
          · exact validate_plugin_no_missing_dir fs p hd errs hv q h1
      · have hd' : fs.isDir (p ++ [".claude-plugin"]) = false := by
          revert hd; cases fs.isDir (p ++ [".claude-plugin"]) <;> simp
        rw [hd']
        simpa using h q

lemma foldl_stepPlugin_found (fs : FS) :
    ∀ (L : List (List String)) (st : MainResult), st.crashed = false →
      (L.foldl (stepPlugin fs) st).crashed = false →
      (L.foldl (stepPlugin fs) st).plugins_found =
        st.plugins_found +
          (L.filter (fun p => fs.isDir (p ++ [".claude-plugin"]))).length := by
  intro L
  induction L with
  | nil => intro st _ _; simp
  | cons p L ih =>
    intro st hcr hfin
    rw [List.foldl_cons] at hfin ⊢
    rw [List.filter_cons]
    by_cases hd : fs.isDir (p ++ [".claude-plugin"]) = true
    · cases hv : validate_plugin fs p with
      | ok errs =>
        have hstep : stepPlugin fs st p =
            ⟨st.plugins_found + 1, st.all_errors ++ errs, false⟩ := by
          unfold stepPlugin
          rw [hcr, hd, hv]
          simp
        rw [hstep] at hfin ⊢
        rw [ih _ rfl hfin]
        simp [hd, Nat.add_assoc, Nat.add_comm 1]
      | error e =>
        exfalso
        have hstep : stepPlugin fs st p =
            ⟨st.plugins_found + 1, st.all_errors, true⟩ := by
          unfold stepPlugin
          rw [hcr, hd, hv]
          simp
        rw [hstep, foldl_stepPlugin_crashed fs L _ rfl] at hfin
        cases hfin
    · have hd' : fs.isDir (p ++ [".claude-plugin"]) = false := by
        revert hd; cases fs.isDir (p ++ [".claude-plugin"]) <;> simp
      have hstep : stepPlugin fs st p = st := by
        unfold stepPlugin
        rw [hcr, hd']
        simp
      rw [hstep] at hfin ⊢
      rw [ih st hcr hfin]
      simp [hd']

lemma bool_eq_false {b : Bool} (h : ¬ b = true) : b = false := by
  cases b with
  | false => rfl
  | true => exact absurd rfl h

lemma exitCode_ne_zero_iff (n : Nat) (E : List VError) :
    exitCode ⟨n, E, false⟩ ≠ 0 ↔ E ≠ [] := by
  by_cases hE : E = [] <;> simp [exitCode, List.isEmpty_iff, hE]

/-- C1 (amended): whenever every found plugin's validation returns normally
(no uncaught exception — in particular whenever every declared `skills`
field is a string), the validator's exit code is a failure code iff at
least one found plugin produced at least one validation error; and if the
registry root directory does not exist the validator exits with success
without validating anything. -/
theorem validator_exit_iff (fs : FS) (pd : List String)
    (hok : ∀ p ∈ foundPlugins fs pd, vOk fs p = true) :
    (exitCode (runValidator fs pd) ≠ 0 ↔ ∃ p ∈ foundPlugins fs pd, vErrs fs p ≠ []) ∧
    (fs.isDir pd = false → runValidator fs pd = ⟨0, [], false⟩) := by
  by_cases h : fs.isDir pd = true
  · have hfp : foundPlugins fs pd =
        (pluginPaths fs pd).filter (fun p => fs.isDir (p ++ [".claude-plugin"])) := by
      unfold foundPlugins
      rw [h]
      simp
    have hok' : ∀ p ∈ pluginPaths fs pd,
        fs.isDir (p ++ [".claude-plugin"]) = true → vOk fs p = true := by
      intro p hp hd
      exact hok p (by rw [hfp]; exact List.mem_filter.mpr ⟨hp, hd⟩)
    have hchar := foldl_stepPlugin_ok fs (pluginPaths fs pd) ⟨0, [], false⟩ rfl hok'
    have hrun := runValidator_eq_foldl fs pd h
    constructor
    · rw [hrun, hchar, hfp, exitCode_ne_zero_iff]
      simp only [List.nil_append, Ne, List.flatMap_eq_nil_iff]
      push_neg
      rfl
    · intro hfalse
      rw [h] at hfalse
      cases hfalse
  · have hfalse : fs.isDir pd = false := bool_eq_false h
    have hrun : runValidator fs pd = ⟨0, [], false⟩ := by
      unfold runValidator
      rw [hfalse]
      simp
    have hfp : foundPlugins fs pd = [] := by
      unfold foundPlugins
      rw [hfalse]
      simp
    constructor
    · rw [hrun, hfp]
      simp [exitCode]
    · intro _
      exact hrun

/-- C1 counterexample: on `fsCrash` the validator dies with an uncaught
exception, so the process exit code is the failure code 1 although the one
found plugin produced no validation error at all. -/
theorem validator_exit_cex :
    exitCode (runValidator fsCrash ["root", "plugins"]) = 1 ∧
    (runValidator fsCrash ["root", "plugins"]).all_errors = [] ∧
    (runValidator fsCrash ["root", "plugins"]).crashed = true ∧
    (runValidator fsCrash ["root", "plugins"]).plugins_found = 1 :=
  ⟨rfl, rfl, rfl, rfl⟩

/-- Witness for `validator_exit_iff` on a concrete registry. -/
theorem validator_exit_iff_witness :
    (exitCode (runValidator fsValid ["root", "plugins"]) ≠ 0 ↔
      ∃ p ∈ foundPlugins fsValid ["root", "plugins"], vErrs fsValid p ≠ []) ∧
    (fsValid.isDir ["root", "plugins"] = false →
      runValidator fsValid ["root", "plugins"] = ⟨0, [], false⟩) :=
  validator_exit_iff fsValid ["root", "plugins"] (by decide)

/-- C10: the `Missing .claude-plugin directory` error is unreachable in a
full validator run: no run ever collects such an error, a candidate plugin
directory lacking the `.claude-plugin` subdirectory leaves the traversal
state unchanged, and (when the run completes) the found-plugin count is
exactly the number of plugin directories that do contain it. -/
theorem missing_dir_branch_unreachable (fs : FS) (pd : List String) :
    (∀ q, VError.missingClaudePluginDir q ∉ (runValidator fs pd).all_errors) ∧
    (∀ (st : MainResult) (p : List String),
      fs.isDir (p ++ [".claude-plugin"]) = false → stepPlugin fs st p = st) ∧
    ((runValidator fs pd).crashed = false →
      (runValidator fs pd).plugins_found = (foundPlugins fs pd).length) := by
  refine ⟨?_, ?_, ?_⟩
  · by_cases h : fs.isDir pd = true
    · rw [runValidator_eq_foldl fs pd h]
      exact foldl_stepPlugin_no_mc fs (pluginPaths fs pd) ⟨0, [], false⟩ (by simp)
    · have hfalse : fs.isDir pd = false := bool_eq_false h
      have hrun : runValidator fs pd = ⟨0, [], false⟩ := by
        unfold runValidator
        rw [hfalse]
        simp
      rw [hrun]
      simp
  · intro st p hd
    unfold stepPlugin
    by_cases hcr : st.crashed = true
    · rw [hcr]
      simp
    · rw [bool_eq_false hcr, hd]
      simp
  · intro hcf
    by_cases h : fs.isDir pd = true
    · rw [runValidator_eq_foldl fs pd h] at hcf ⊢
      rw [foldl_stepPlugin_found fs (pluginPaths fs pd) ⟨0, [], false⟩ rfl hcf]
      unfold foundPlugins
      rw [h]
      simp
    · have hfalse : fs.isDir pd = false := bool_eq_false h
      have hrun : runValidator fs pd = ⟨0, [], false⟩ := by
        unfold runValidator
        rw [hfalse]
        simp
      rw [hrun]
      unfold foundPlugins
      rw [hfalse]
      simp

/-- Witness for `missing_dir_branch_unreachable` on a concrete registry
with a bare plugin directory. -/
theorem missing_dir_branch_unreachable_witness :
    VError.missingClaudePluginDir ["root", "plugins", "general", "bare"] ∉
      (runValidator fsMixed ["root", "plugins"]).all_errors ∧
    stepPlugin fsMixed ⟨0, [], false⟩ ["root", "plugins", "general", "bare"] =
      ⟨0, [], false⟩ ∧
    (runValidator fsMixed ["root", "plugins"]).plugins_found =
      (foundPlugins fsMixed ["root", "plugins"]).length :=
  ⟨(missing_dir_branch_unreachable fsMixed ["root", "plugins"]).1 _,
    (missing_dir_branch_unreachable fsMixed ["root", "plugins"]).2.1 ⟨0, [], false⟩ _
      (by decide),
    (missing_dir_branch_unreachable fsMixed ["root", "plugins"]).2.2 (by decide)⟩

lemma filter_missing_map (flist : List String) (pj : List String) :
    (flist.map (fun f => VError.missingField f pj)).filter isMissingFieldError =
      flist.map (fun f => VError.missingField f pj) := by
  induction flist with
  | nil => rfl
  | cons f rest ih => simp [List.filter_cons, isMissingFieldError, ih]

lemma skills_tail_shape (fs : FS) (p : List String) (req : List VError) (s : String) :
    ∃ errs,
      (if fs.isDir (resolveSkillsDir p s) = false then
          Except.ok (ε := PyErr) (req ++ [VError.skillsDirNotFound (resolveSkillsDir p s)])
        else if fs.rglobHit (resolveSkillsDir p s) "SKILL.md" = false then
          Except.ok (req ++ [VError.noSkillFiles (resolveSkillsDir p s)])
        else Except.ok req) = .ok errs ∧
      errs.filter isMissingFieldError = req.filter isMissingFieldError := by
  split
  · exact ⟨_, rfl, by simp [List.filter_append, isMissingFieldError]⟩
  · split
    · exact ⟨_, rfl, by simp [List.filter_append, isMissingFieldError]⟩
    · exact ⟨_, rfl, rfl⟩

/-- C5 (amended): for every descriptor that parses as a JSON object and
whose `skills` field, when present, is a string, the validator checks
`name`, `description` and `skills` independently, and a descriptor missing
exactly two of the three yields exactly two distinct field-missing errors.
(The string condition is needed because a non-string `skills` value makes
validation raise before returning its error list.) -/
theorem two_missing_fields_two_errors (fs : FS) (p : List String)
    (flds : List (String × JVal))
    (hdir : fs.isDir (p ++ [".claude-plugin"]) = true)
    (hfile : fs.fileContent (p ++ [".claude-plugin", "plugin.json"]) =
      some (.jsonVal (.obj flds)))
    (hskills : ∀ v, List.lookup "skills" flds = some v → ∃ s, v = JVal.str s)
    (htwo : (requiredFields.filter
      (fun f => !(flds.any (fun kv => kv.1 == f)))).length = 2) :
    ∃ errs, validate_plugin fs p = .ok errs ∧
      (errs.filter isMissingFieldError).length = 2 ∧
      (errs.filter isMissingFieldError).Nodup := by
  have hreq := requiredLoop_obj flds (p ++ [".claude-plugin", "plugin.json"]) requiredFields []
  have hfprop :
      (((requiredFields.filter (fun f => !(flds.any (fun kv => kv.1 == f)))).map
          (fun f => VError.missingField f (p ++ [".claude-plugin", "plugin.json"]))).filter
            isMissingFieldError).length = 2 ∧
      (((requiredFields.filter (fun f => !(flds.any (fun kv => kv.1 == f)))).map
          (fun f => VError.missingField f (p ++ [".claude-plugin", "plugin.json"]))).filter
            isMissingFieldError).Nodup := by
    rw [filter_missing_map]
    refine ⟨by rw [List.length_map]; exact htwo, ?_⟩
    refine List.Nodup.map ?_ (List.Nodup.filter _ (by decide))
    intro a b hab
    injection hab
  unfold validate_plugin
  simp only [hdir, Bool.true_eq_false, if_false, hfile, hreq, List.nil_append, pyGet]
  cases hl : List.lookup "skills" flds with
  | none =>
    simp only [hl, Option.getD_none]
    obtain ⟨errs, heq, hfilter⟩ := skills_tail_shape fs p
      ((requiredFields.filter (fun f => !(flds.any (fun kv => kv.1 == f)))).map
        (fun f => VError.missingField f (p ++ [".claude-plugin", "plugin.json"])))
      "./skills"
    exact ⟨errs, heq, by rw [hfilter]; exact hfprop.1, by rw [hfilter]; exact hfprop.2⟩
  | some v =>
    obtain ⟨s, rfl⟩ := hskills v hl
    simp only [hl, Option.getD_some]
    obtain ⟨errs, heq, hfilter⟩ := skills_tail_shape fs p
      ((requiredFields.filter (fun f => !(flds.any (fun kv => kv.1 == f)))).map
        (fun f => VError.missingField f (p ++ [".claude-plugin", "plugin.json"])))
      s
    exact ⟨errs, heq, by rw [hfilter]; exact hfprop.1, by rw [hfilter]; exact hfprop.2⟩

/-- C5 counterexample: a descriptor missing exactly two of the three
required fields whose present `skills` field is numeric; validation raises
instead of returning the two field-missing errors it has built. -/
theorem two_missing_fields_cex :
    (requiredFields.filter
      (fun f => !([("skills", JVal.num 0)].any (fun kv => kv.1 == f)))).length = 2 ∧
    validate_plugin fsTwoMissing ["root", "plugins", "general", "demo"] =
      .error .attributeError :=
  ⟨by decide, rfl⟩

/-- Witness for `two_missing_fields_two_errors` on a concrete descriptor
missing `description` and `skills`. -/
theorem two_missing_fields_two_errors_witness :
    ∃ errs, validate_plugin fsOnlyName ["root", "plugins", "general", "demo"] = .ok errs ∧
      (errs.filter isMissingFieldError).length = 2 ∧
      (errs.filter isMissingFieldError).Nodup :=
  two_missing_fields_two_errors fsOnlyName ["root", "plugins", "general", "demo"]
    [("name", JVal.str "demo")] (by decide) rfl (fun v hv => nomatch hv) (by decide)

/-- C6 (code bug): on a plugin directory whose descriptor parses as a JSON
object but carries a non-string `skills` value, per-plugin validation does
not return an error list: it raises an uncaught `AttributeError` (from
`skills_path.lstrip`), a process-terminating fault. -/
theorem validate_plugin_nonstring_skills_crash :
    fsCrash.fileContent
        ["root", "plugins", "general", "demo", ".claude-plugin", "plugin.json"] =
      some (.jsonVal (.obj [("name", .str "demo"), ("description", .str "d"),
        ("skills", .num 7)])) ∧
    validate_plugin fsCrash ["root", "plugins", "general", "demo"] =
      .error .attributeError :=
  ⟨rfl, rfl⟩

lemma pyLstrip_eq_self (r : String) (hr : headNotDotSlash r = true) :
    pyLstripDotSlash r = r := by
  obtain ⟨rl⟩ := r
  cases rl with
  | nil => rfl
  | cons c cl =>
    have hc : (c == '.' || c == '/') = false := by
      have h1 : (!(c == '.' || c == '/')) = true := hr
      simpa using h1
    show (⟨List.dropWhile _ (c :: cl)⟩ : String) = ⟨c :: cl⟩
    rw [List.dropWhile_cons, if_neg (by simp [hc])]

lemma lstrip_dotslash_cons (r : String) :
    pyLstripDotSlash ("./" ++ r) = pyLstripDotSlash r := by
  obtain ⟨rl⟩ := r
  rfl

lemma splitPathComps_dotslash (r : String) :
    splitPathComps ("./" ++ r) = splitPathComps r := by
  obtain ⟨rl⟩ := r
  rfl

/-- C7 (amended): the directory the validator checks and searches is the
plugin directory joined with the declared skills path stripped of all its
leading dot and slash characters; for a declared path that does not start
with a dot or slash, and likewise for one carrying just a literal leading
`./` (in particular the default `./skills`), this coincides with the plugin
directory joined with the declared relative path. -/
theorem skills_path_resolution (p : List String) (d r : String)
    (hdr : d = "./" ++ r ∨ d = r)
    (hr : headNotDotSlash r = true) :
    resolveSkillsDir p d = p ++ splitPathComps r ∧
    specSkillsDir p d = p ++ splitPathComps r := by
  rcases hdr with rfl | rfl
  · constructor
    · unfold resolveSkillsDir
      rw [lstrip_dotslash_cons, pyLstrip_eq_self r hr]
    · unfold specSkillsDir
      rw [splitPathComps_dotslash]
  · constructor
    · unfold resolveSkillsDir
      rw [pyLstrip_eq_self d hr]
    · rfl

/-- C7 counterexample: for the declared relative path `.skills` the
validator checks `plugin/skills`, not the declared `plugin/.skills` — the
declared directory exists and holds a marker file, yet validation reports
the skills directory as missing. -/
theorem skills_path_resolution_cex :
    resolveSkillsDir ["cat", "demo"] ".skills" = ["cat", "demo", "skills"] ∧
    specSkillsDir ["cat", "demo"] ".skills" = ["cat", "demo", ".skills"] ∧
    resolveSkillsDir ["cat", "demo"] ".skills" ≠ specSkillsDir ["cat", "demo"] ".skills" ∧
    fsDotSkills.isDir ["cat", "demo", ".skills"] = true ∧
    fsDotSkills.rglobHit ["cat", "demo", ".skills"] "SKILL.md" = true ∧
    validate_plugin fsDotSkills ["cat", "demo"] =
      .ok [.skillsDirNotFound ["cat", "demo", "skills"]] :=
  ⟨by decide, by decide, by decide, by decide, by decide, rfl⟩

/-- Witness for `skills_path_resolution` at the default declared path. -/
theorem skills_path_resolution_witness :
    resolveSkillsDir ["plugins", "general", "demo"] "./skills" =
      ["plugins", "general", "demo", "skills"] ∧
    specSkillsDir ["plugins", "general", "demo"] "./skills" =
      ["plugins", "general", "demo", "skills"] :=
  skills_path_resolution ["plugins", "general", "demo"] "./skills" "skills"
    (Or.inl rfl) (by decide)

/-! Lemmas about the aggregator. -/

lemma mkRecord_eq_specRecord (fs : FS) (pd : List String) (c n : String)
    (flds : List (String × JVal))
    (hfc : fs.fileContent (descPath pd c n) = some (.jsonVal (.obj flds))) :
    mkRecord pd c n flds = specRecord fs pd (c, n) := by
  unfold specRecord
  have hof : objFieldsOf fs pd c n = flds := by
    simp only [objFieldsOf, hfc]
  rw [hof]
  rfl

lemma collectInner_good (fs : FS) (pd : List String) (c : String) :
    ∀ (ns : List String), (∀ n ∈ ns, descOk fs pd c n = true) →
      ∀ acc, collectInner fs pd c ns acc =
        .ok (acc.1 ++ ((ns.filter (fun n => isObjDesc fs pd c n)).map
            (fun n => specRecord fs pd (c, n))),
          acc.2 ++ ((ns.filter (fun n => isBadJsonDesc fs pd c n)).map
            (fun n => descPath pd c n))) := by
  intro ns
  induction ns with
  | nil => intro _ acc; simp [collectInner]
  | cons n rest ih =>
    intro h acc
    have hn := h n (List.mem_cons_self _ _)
    have hrest : ∀ m ∈ rest, descOk fs pd c m = true :=
      fun m hm2 => h m (List.mem_cons_of_mem _ hm2)
    cases hfc : fs.fileContent (descPath pd c n) with
    | none =>
      have h1 : isObjDesc fs pd c n = false := by simp only [isObjDesc, hfc]
      have h2 : isBadJsonDesc fs pd c n = false := by simp only [isBadJsonDesc, hfc]
      simp only [collectInner, collectStep, hfc]
      rw [ih hrest acc]
      simp [List.filter_cons, h1, h2]
    | some fc =>
      cases fc with
      | notJson =>
        have h1 : isObjDesc fs pd c n = false := by simp only [isObjDesc, hfc]
        have h2 : isBadJsonDesc fs pd c n = true := by simp only [isBadJsonDesc, hfc]
        simp only [collectInner, collectStep, hfc]
        rw [ih hrest (acc.1, acc.2 ++ [descPath pd c n])]
        simp [List.filter_cons, h1, h2, List.append_assoc]
      | jsonVal v =>
        cases v with
        | obj flds =>
          have h1 : isObjDesc fs pd c n = true := by simp only [isObjDesc, hfc]
          have h2 : isBadJsonDesc fs pd c n = false := by simp only [isBadJsonDesc, hfc]
          simp only [collectInner, collectStep, hfc]
          rw [ih hrest (acc.1 ++ [mkRecord pd c n flds], acc.2)]
          rw [mkRecord_eq_specRecord fs pd c n flds hfc]
          simp [List.filter_cons, h1, h2, List.append_assoc]
        | null =>
          simp only [descOk, hfc, JVal.isObj] at hn
          exact Bool.noConfusion hn
        | bool b =>
          simp only [descOk, hfc, JVal.isObj] at hn
          exact Bool.noConfusion hn
        | num m =>
          simp only [descOk, hfc, JVal.isObj] at hn
          exact Bool.noConfusion hn
        | str s =>
          simp only [descOk, hfc, JVal.isObj] at hn
          exact Bool.noConfusion hn
        | arr xs =>
          simp only [descOk, hfc, JVal.isObj] at hn
          exact Bool.noConfusion hn

lemma collectOuter_good (fs : FS) (pd : List String) :
    ∀ (cs : List String),
      (∀ c ∈ cs, ∀ n ∈ fs.childDirs (pd ++ [c]), descOk fs pd c n = true) →
      ∀ acc, collectOuter fs pd cs acc =
        .ok (acc.1 ++ cs.flatMap (fun c =>
            ((fs.childDirs (pd ++ [c])).filter (fun n => isObjDesc fs pd c n)).map
              (fun n => specRecord fs pd (c, n))),
          acc.2 ++ cs.flatMap (fun c =>
            ((fs.childDirs (pd ++ [c])).filter (fun n => isBadJsonDesc fs pd c n)).map
              (fun n => descPath pd c n))) := by
  intro cs
  induction cs with
  | nil => intro _ acc; simp [collectOuter]
  | cons c rest ih =>
    intro h acc
    have hinner := collectInner_good fs pd c (fs.childDirs (pd ++ [c]))
      (h c (List.mem_cons_self _ _)) acc
    simp only [collectOuter, hinner]
    rw [ih (fun c' hc' => h c' (List.mem_cons_of_mem _ hc'))
      (acc.1 ++ ((fs.childDirs (pd ++ [c])).filter (fun n => isObjDesc fs pd c n)).map
          (fun n => specRecord fs pd (c, n)),
        acc.2 ++ ((fs.childDirs (pd ++ [c])).filter (fun n => isBadJsonDesc fs pd c n)).map
          (fun n => descPath pd c n))]
    simp [List.flatMap_cons, List.append_assoc]

lemma validPlugins_map (fs : FS) (pd : List String) (hd : fs.isDir pd = true) :
    (validPlugins fs pd).map (specRecord fs pd) =
      (fs.childDirs pd).flatMap (fun c =>
        ((fs.childDirs (pd ++ [c])).filter (fun n => isObjDesc fs pd c n)).map
          (fun n => specRecord fs pd (c, n))) := by
  unfold validPlugins
  rw [hd]
  simp only [Bool.true_eq_false, if_false, List.map_flatMap, List.map_map]
  rfl

lemma collect_plugins_spec (fs : FS) (pd : List String) (h : goodDescs fs pd) :
    collect_plugins fs pd =
      .ok ((validPlugins fs pd).map (specRecord fs pd), specWarns fs pd) := by
  by_cases hd : fs.isDir pd = true
  · unfold collect_plugins
    rw [hd]
    simp only [Bool.true_eq_false, if_false]
    rw [collectOuter_good fs pd (fs.childDirs pd) h ([], []),
      validPlugins_map fs pd hd]
    unfold specWarns
    rw [hd]
    simp only [Bool.true_eq_false, if_false, List.nil_append]
  · have hfalse : fs.isDir pd = false := bool_eq_false hd
    unfold collect_plugins validPlugins specWarns
    rw [hfalse]
    simp

lemma isPrefixOf_iff : ∀ (l1 l2 : List String), l1.isPrefixOf l2 = true ↔ ∃ t, l2 = l1 ++ t := by
  intro l1
  induction l1 with
  | nil =>
    intro l2
    simp [List.isPrefixOf]
  | cons a as ih =>
    intro l2
    cases l2 with
    | nil =>
      simp [List.isPrefixOf]
    | cons b bs =>
      simp only [List.isPrefixOf, Bool.and_eq_true, beq_iff_eq, ih, List.cons_append,
        List.cons.injEq]
      constructor
      · rintro ⟨rfl, t, rfl⟩
        exact ⟨t, rfl, rfl⟩
      · rintro ⟨t, rfl, rfl⟩
        exact ⟨rfl, t, rfl⟩

lemma childDirs_mem_shape (fs : FS) (p : List String) (e : List String × Node) (b : String)
    (hb : (match e with
      | (q, .dir) =>
        if q.length == p.length + 1 && p.isPrefixOf q then q.getLast? else none
      | _ => none) = some b) :
    e = (p ++ [b], Node.dir) := by
  obtain ⟨q, node⟩ := e
  cases node with
  | file c => cases hb
  | dir =>
    simp only at hb
    by_cases hc : (q.length == p.length + 1 && p.isPrefixOf q) = true
    · rw [if_pos hc] at hb
      obtain ⟨hlen, hpre⟩ := (Bool.and_eq_true _ _) ▸ hc
      obtain ⟨t, rfl⟩ := (isPrefixOf_iff p q).mp hpre
      have hlen' : (p ++ t).length = p.length + 1 := by
        simpa using hlen
      rw [List.length_append] at hlen'
      have ht1 : t.length = 1 := by omega
      obtain ⟨x, rfl⟩ : ∃ x, t = [x] := by
        cases t with
        | nil => simp at ht1
        | cons x xs =>
          cases xs with
          | nil => exact ⟨x, rfl⟩
          | cons y ys => simp at ht1
      rw [List.getLast?_concat] at hb
      cases hb
      rfl
    · rw [if_neg hc] at hb
      cases hb

lemma childDirs_nodup (fs : FS) (hwf : (fs.entries.map Prod.fst).Nodup) (p : List String) :
    (fs.childDirs p).Nodup := by
  unfold FS.childDirs
  refine List.Nodup.filterMap ?_ (List.Nodup.of_map _ hwf)
  intro a a' b hb hb'
  have h1 := childDirs_mem_shape fs p a b (Option.mem_def.mp hb)
  have h2 := childDirs_mem_shape fs p a' b (Option.mem_def.mp hb')
  rw [h1, h2]

lemma validPlugins_fst (fs : FS) (pd : List String) (c : String) (x : String × String)
    (hx : x ∈ ((fs.childDirs (pd ++ [c])).filter (fun n => isObjDesc fs pd c n)).map
      (fun n => (c, n))) : x.1 = c := by
  obtain ⟨n, _, rfl⟩ := List.mem_map.mp hx
  rfl

lemma validPlugins_nodup (fs : FS) (pd : List String)
    (hwf : (fs.entries.map Prod.fst).Nodup) : (validPlugins fs pd).Nodup := by
  unfold validPlugins
  split
  · exact List.nodup_nil
  · rw [List.nodup_flatMap]
    constructor
    · intro c _
      refine List.Nodup.map ?_ (List.Nodup.filter _ (childDirs_nodup fs hwf _))
      intro n n' hnn
      have := congrArg Prod.snd hnn
      exact this
    · refine List.Pairwise.imp ?_ (childDirs_nodup fs hwf pd)
      intro c c' hne x hx hx'
      exact hne ((validPlugins_fst fs pd c x hx).symm.trans (validPlugins_fst fs pd c' x hx'))

/-- C2 (amended): for every well-formed registry tree in which every
parseable descriptor is a JSON object (the condition under which the
aggregator completes), the generated plugin list is exactly one
spec-conforming record per plugin directory with a valid descriptor, in
traversal order and without duplicates; plugin directories lacking the
descriptor contribute nothing.  (As literally stated over every tree the
claim fails: a descriptor parsing to non-object JSON crashes the run, so
no list is generated at all.) -/
theorem aggregator_completeness (fs : FS) (pd : List String)
    (hwf : (fs.entries.map Prod.fst).Nodup)
    (hgood : goodDescs fs pd) :
    collect_plugins fs pd =
      .ok ((validPlugins fs pd).map (specRecord fs pd), specWarns fs pd) ∧
    (validPlugins fs pd).Nodup :=
  ⟨collect_plugins_spec fs pd hgood, validPlugins_nodup fs pd hwf⟩

/-- Witness for `aggregator_completeness` on a registry with one valid
plugin and one bare plugin directory. -/
theorem aggregator_completeness_witness :
    collect_plugins fsMixed ["root", "plugins"] =
      .ok ((validPlugins fsMixed ["root", "plugins"]).map
          (specRecord fsMixed ["root", "plugins"]),
        specWarns fsMixed ["root", "plugins"]) ∧
    (validPlugins fsMixed ["root", "plugins"]).Nodup :=
  aggregator_completeness fsMixed ["root", "plugins"] (by decide) (by decide)

/-- C2 counterexample: a registry containing a plugin with a valid
descriptor and another whose descriptor parses to a JSON string; the
aggregator dies with an uncaught `AttributeError`, so no plugin list
containing the valid plugin's record is generated. -/
theorem aggregator_completeness_cex :
    isObjDesc fsNonObj ["root", "plugins"] "general" "good" = true ∧
    collect_plugins fsNonObj ["root", "plugins"] = .error .attributeError :=
  ⟨rfl, rfl⟩

/-- C8 (amended): in a well-formed registry whose parseable descriptors
are all JSON objects, a plugin whose descriptor file is invalid JSON is
warned about (its descriptor path appears in the warning list), yields no
record, and every other plugin with a valid descriptor still gets its
record — the run is not aborted.  (As literally stated over every such
tree the claim fails: a further descriptor parsing to non-object JSON
aborts the whole run.) -/
theorem aggregator_resilience (fs : FS) (pd : List String) (c n : String)
    (hgood : goodDescs fs pd)
    (hroot : fs.isDir pd = true)
    (hc : c ∈ fs.childDirs pd)
    (hn : n ∈ fs.childDirs (pd ++ [c]))
    (hbad : isBadJsonDesc fs pd c n = true) :
    collect_plugins fs pd =
      .ok ((validPlugins fs pd).map (specRecord fs pd), specWarns fs pd) ∧
    descPath pd c n ∈ specWarns fs pd ∧
    (c, n) ∉ validPlugins fs pd := by
  refine ⟨collect_plugins_spec fs pd hgood, ?_, ?_⟩
  · unfold specWarns
    rw [hroot]
    simp only [Bool.true_eq_false, if_false]
    exact List.mem_flatMap.mpr
      ⟨c, hc, List.mem_map.mpr ⟨n, List.mem_filter.mpr ⟨hn, hbad⟩, rfl⟩⟩
  · unfold validPlugins
    rw [hroot]
    simp only [Bool.true_eq_false, if_false]
    intro hmem
    obtain ⟨c', _, hmem'⟩ := List.mem_flatMap.mp hmem
    obtain ⟨n', hn', heq⟩ := List.mem_map.mp hmem'
    rw [Prod.mk.injEq] at heq
    obtain ⟨rfl, rfl⟩ := heq
    have hobj := (List.mem_filter.mp hn').2
    cases hfc : fs.fileContent (descPath pd c' n') with
    | none =>
      simp only [isObjDesc, hfc] at hobj
      exact Bool.noConfusion hobj
    | some fc =>
      cases fc with
      | notJson =>
        simp only [isObjDesc, hfc] at hobj
        exact Bool.noConfusion hobj
      | jsonVal v =>
        simp only [isBadJsonDesc, hfc] at hbad
        exact Bool.noConfusion hbad

/-- Witness for `aggregator_resilience` on a concrete registry. -/
theorem aggregator_resilience_witness :
    collect_plugins fsBadJson ["root", "plugins"] =
      .ok ((validPlugins fsBadJson ["root", "plugins"]).map
          (specRecord fsBadJson ["root", "plugins"]),
        specWarns fsBadJson ["root", "plugins"]) ∧
    descPath ["root", "plugins"] "general" "bad" ∈
      specWarns fsBadJson ["root", "plugins"] ∧
    ("general", "bad") ∉ validPlugins fsBadJson ["root", "plugins"] :=
  aggregator_resilience fsBadJson ["root", "plugins"] "general" "bad"
    (by decide) rfl (by decide) (by decide) rfl

/-- C8 counterexample: a registry in which some plugin's descriptor is
invalid JSON but a later descriptor parses to non-object JSON; the run
aborts with an uncaught exception, so the valid plugin's record is never
produced. -/
theorem aggregator_resilience_cex :
    isBadJsonDesc fsBadAndNonObj ["root", "plugins"] "general" "bad" = true ∧
    isObjDesc fsBadAndNonObj ["root", "plugins"] "general" "zgood" = true ∧
    collect_plugins fsBadAndNonObj ["root", "plugins"] = .error .attributeError :=
  ⟨rfl, rfl, rfl⟩

/-- C9: when the plugins directory does not exist, the aggregator still
completes and produces a full marketplace document with the version
literal, the timestamp, the repository literal and an empty plugin list,
reporting a count of 0. -/
theorem marketplace_empty_when_no_plugins_dir (fs : FS) (pd : List String) (now : String)
    (h : fs.isDir pd = false) :
    generateMarketplace fs pd now = .ok (⟨"1.0.0", now ++ "Z", repoUrl, []⟩, 0) := by
  unfold generateMarketplace collect_plugins
  rw [h]
  simp

/-- Witness for `marketplace_empty_when_no_plugins_dir` on the empty tree. -/
theorem marketplace_empty_witness :
    generateMarketplace ⟨[]⟩ ["root", "plugins"] "2026-10-12T00:00:00" =
      .ok (⟨"1.0.0", "2026-10-12T00:00:00" ++ "Z", repoUrl, []⟩, 0) :=
  marketplace_empty_when_no_plugins_dir ⟨[]⟩ ["root", "plugins"] "2026-10-12T00:00:00" rfl
